import Mathlib

/-!
Verification development for the Picologs desktop log-reading core
(`src/apps/desktop/src-tauri/src/lib.rs`).

The Rust core is a pure, single-pass pipeline over the lines of a log file:
regex-based tag extraction (`extract_log_pattern`), a canonical signature
(`generate_signature`), a fixed marker filter (`contains_event_marker`), and
four file-reading commands (`read_log_update`, `get_log_metadata`,
`read_log_lines_from`, `get_line_count`).

Modelling conventions:
- A file that opened successfully is modelled as its list of decoded lines
  (`List String`), matching `BufReader::lines()`.
- Lines are processed as `List Char` (`String.data`); byte indices returned by
  `str::find` always fall on character boundaries in the code paths modelled
  here, so character-level slicing is extensionally faithful.
- The character classes `\d` and `\s` of the `regex` crate are Unicode classes;
  they are modelled by their ASCII parts, which is what every marker, tag and
  timestamp in this code base uses.
- `HashSet<String>` collection (`collect::<HashSet<_>>().into_iter().collect()`)
  deduplicates and enumerates in an unspecified, per-instance-seed-dependent
  order.  That order is modelled by an explicit parameter `g` which must turn a
  list into some enumeration of its distinct elements (predicate `HashOrd`).
-/

namespace Pico

/-- Character class of `\d` (ASCII part), used by `TIMESTAMP_RE`. -/
def tsDigit (c : Char) : Bool := c.isDigit

/-- Character class `[\d:.]` inside `TIMESTAMP_RE`. -/
def tsCls (c : Char) : Bool := c.isDigit || c == ':' || c == '.'

/-- Character class of `\s` (ASCII part) for the trailing `\s*` of `TIMESTAMP_RE`. -/
def isSpaceChar (c : Char) : Bool :=
  c == ' ' || c == '\t' || c == '\n' || c == '\r' || c == Char.ofNat 11 || c == Char.ofNat 12

/-- Character class `[A-Za-z_:]`, the first character of `EVENT_NAME_RE`'s group. -/
def startCls (c : Char) : Bool := c.isAlpha || c == '_' || c == ':'

/-- Character class `[A-Za-z0-9_:]` of `EVENT_NAME_RE`. -/
def aCls (c : Char) : Bool := c.isAlpha || c.isDigit || c == '_' || c == ':'

/-- Character class `[A-Za-z0-9_<>]` of `EVENT_NAME_RE`'s generic-suffix part. -/
def tCls (c : Char) : Bool := c.isAlpha || c.isDigit || c == '_' || c == '<' || c == '>'

/-- Character class `[A-Za-z0-9_]` of `SUBSYSTEM_TAG_RE`. -/
def subCls (c : Char) : Bool := c.isAlpha || c.isDigit || c == '_'

/-- Boolean test that `pat` is a prefix of `cs` (models `str::starts_with`). -/
def listStartsWith : List Char → List Char → Bool
  | [], _ => true
  | _ :: _, [] => false
  | p :: ps, c :: cs => p == c && listStartsWith ps cs

/-- Boolean test that `pat` occurs as a contiguous substring of `cs`
(models `str::contains` with a literal pattern). -/
def containsSub (pat : List Char) : List Char → Bool
  | [] => listStartsWith pat []
  | c :: cs => listStartsWith pat (c :: cs) || containsSub pat cs

/-- Suffix of `cs` just after the first occurrence of `pat`
(models `str::find` followed by slicing from `index + pat.len()`). -/
def afterSub (pat : List Char) : List Char → Option (List Char)
  | [] => if listStartsWith pat [] then some [] else none
  | c :: cs =>
    if listStartsWith pat (c :: cs) then some (List.drop pat.length (c :: cs))
    else afterSub pat cs

/-- Index (in characters) of the first occurrence of `pat` in `cs`
(models `str::find`). -/
def findSubIdx (pat : List Char) : List Char → Option Nat
  | [] => if listStartsWith pat [] then some 0 else none
  | c :: cs =>
    if listStartsWith pat (c :: cs) then some 0
    else (findSubIdx pat cs).map (· + 1)

/-- Consume exactly `n` digit characters (the `\d{n}` pieces of `TIMESTAMP_RE`). -/
def expectDigits : Nat → List Char → Option (List Char)
  | 0, cs => some cs
  | _ + 1, [] => none
  | n + 1, c :: cs => if tsDigit c then expectDigits n cs else none

/-- Consume one expected literal character. -/
def expectChar (a : Char) : List Char → Option (List Char)
  | [] => none
  | c :: cs => if c == a then some cs else none

/-- Match `TIMESTAMP_RE = ^<\d{4}-\d{2}-\d{2}T[\d:.]+Z>\s*` against the start of
the line and return the remaining content (the result of
`TIMESTAMP_RE.replace(line, "")` when the regex matches).  `none` models
`is_match == false`.  The greedy `[\d:.]+` and `\s*` need no backtracking
because `Z` is outside the first class and the match ends the pattern. -/
def stripTimestamp (cs : List Char) : Option (List Char) :=
  (expectChar '<' cs).bind fun r1 =>
  (expectDigits 4 r1).bind fun r2 =>
  (expectChar '-' r2).bind fun r3 =>
  (expectDigits 2 r3).bind fun r4 =>
  (expectChar '-' r4).bind fun r5 =>
  (expectDigits 2 r5).bind fun r6 =>
  (expectChar 'T' r6).bind fun r7 =>
  let run := r7.takeWhile tsCls
  let rest := r7.dropWhile tsCls
  if run.isEmpty then none
  else
    (expectChar 'Z' rest).bind fun r8 =>
    (expectChar '>' r8).map fun r9 => r9.dropWhile isSpaceChar

/-- Severity tag table `SEVERITY_TAGS = ["Notice", "Error", "Trace", "Warning"]`. -/
def SEVERITY_TAGS : List String := ["Notice", "Error", "Trace", "Warning"]

/-- Leftmost match of `SEVERITY_RE = \[(Notice|Error|Trace|Warning)\]`, returning
capture group 1 (the alternatives start with distinct letters, so at any `[` at
most one alternative can match). -/
def findSeverity : List Char → Option String
  | [] => none
  | c :: rest =>
    if c == '[' then
      if listStartsWith "Notice]".data rest then some "Notice"
      else if listStartsWith "Error]".data rest then some "Error"
      else if listStartsWith "Trace]".data rest then some "Trace"
      else if listStartsWith "Warning]".data rest then some "Warning"
      else findSeverity rest
    else findSeverity rest

/-- Phases of the backtracking matcher for the body of `EVENT_NAME_RE`:
`A` is `[A-Za-z0-9_:]*`, `B` is `(?:::[A-Za-z0-9_<>]+)*` followed by `>`,
`T` is the mandatory first character of `[A-Za-z0-9_<>]+`, and `Ts` its
greedy continuation. -/
inductive EvPhase
  | A | B | T | Ts

/-- Backtracking matcher for `EVENT_NAME_RE`'s body after `<` and its first
group character, with leftmost-first (greedy, preference-ordered) semantics as
implemented by the `regex` crate.  Returns the rest of capture group 1 together
with the input remaining after the closing `>`.  The fuel argument strictly
decreases on every call; the call depth is bounded by twice the input length
plus a constant, so callers pass ample fuel. -/
def evMatch : Nat → EvPhase → List Char → Option (List Char × List Char)
  | 0, _, _ => none
  | fuel + 1, EvPhase.A, cs =>
    match cs with
    | c :: rest =>
      if aCls c then
        match evMatch fuel EvPhase.A rest with
        | some (cap, r) => some (c :: cap, r)
        | none => evMatch fuel EvPhase.B cs
      else evMatch fuel EvPhase.B cs
    | [] => evMatch fuel EvPhase.B cs
  | fuel + 1, EvPhase.B, cs =>
    match cs with
    | ':' :: ':' :: rest =>
      (match evMatch fuel EvPhase.T rest with
       | some (cap, r) => some (':' :: ':' :: cap, r)
       | none =>
         match cs with
         | '>' :: r => some ([], r)
         | _ => none)
    | '>' :: r => some ([], r)
    | _ => none
  | fuel + 1, EvPhase.T, cs =>
    match cs with
    | c :: rest =>
      if tCls c then
        match evMatch fuel EvPhase.Ts rest with
        | some (cap, r) => some (c :: cap, r)
        | none => none
      else none
    | [] => none
  | fuel + 1, EvPhase.Ts, cs =>
    match cs with
    | c :: rest =>
      if tCls c then
        match evMatch fuel EvPhase.Ts rest with
        | some (cap, r) => some (c :: cap, r)
        | none => evMatch fuel EvPhase.B cs
      else evMatch fuel EvPhase.B cs
    | [] => evMatch fuel EvPhase.B cs

/-- Leftmost match of
`EVENT_NAME_RE = <([A-Za-z_:][A-Za-z0-9_:]*(?:::[A-Za-z0-9_<>]+)*)>`,
returning capture group 1 (the content between the angle brackets). -/
def findEvInLine : List Char → Option (List Char)
  | [] => none
  | '<' :: rest =>
    (match rest with
     | c0 :: rest2 =>
       if startCls c0 then
         match evMatch (2 * rest2.length + 8) EvPhase.A rest2 with
         | some (cap, _) => some (c0 :: cap)
         | none => findEvInLine rest
       else findEvInLine rest
     | [] => none)
  | _ :: rest => findEvInLine rest

/-- Successive non-overlapping matches of `TEAM_TAG_RE = \[Team_([A-Za-z]+)\]`
(`captures_iter`), each reconstructed as `format!("Team_{}", capture)`.  The
fuel strictly decreases on every call and each call consumes at least one
character, so `length + 1` fuel is ample. -/
def scanTeamsF : Nat → List Char → List String
  | 0, _ => []
  | _ + 1, [] => []
  | fuel + 1, c :: rest =>
    if c == '[' && listStartsWith "Team_".data rest then
      let after := List.drop 5 rest
      let nm := after.takeWhile Char.isAlpha
      let rest2 := after.dropWhile Char.isAlpha
      match rest2 with
      | ']' :: r3 =>
        if nm.isEmpty then scanTeamsF fuel rest
        else ("Team_" ++ String.mk nm) :: scanTeamsF fuel r3
      | _ => scanTeamsF fuel rest
    else scanTeamsF fuel rest

/-- Team-tag scan over a whole content string. -/
def scanTeams (cs : List Char) : List String := scanTeamsF (cs.length + 1) cs

/-- Successive non-overlapping matches of
`SUBSYSTEM_TAG_RE = \[([A-Za-z][A-Za-z0-9_]*)\]` (`captures_iter`), returning
capture group 1 for each match. -/
def scanSubsF : Nat → List Char → List String
  | 0, _ => []
  | _ + 1, [] => []
  | fuel + 1, c :: rest =>
    if c == '[' then
      match rest with
      | c0 :: r2 =>
        if c0.isAlpha then
          let run := r2.takeWhile subCls
          let rest3 := r2.dropWhile subCls
          match rest3 with
          | ']' :: r4 => String.mk (c0 :: run) :: scanSubsF fuel r4
          | _ => scanSubsF fuel rest
        else scanSubsF fuel rest
      | [] => []
    else scanSubsF fuel rest

/-- Subsystem-tag scan over a whole content string. -/
def scanSubs (cs : List Char) : List String := scanSubsF (cs.length + 1) cs

/-- Ascending lexicographic sort of a string vector, modelling `Vec::sort`. -/
def sortStr (l : List String) : List String := List.insertionSort (· ≤ ·) l

/-- Model of `generate_signature`: `format!("{}|{}|{}|{}", event_name or "null",
severity or "null", sorted_teams.join(","), sorted_subsystems.join(","))`. -/
def generateSignature (event_name severity : Option String)
    (teams subsystems : List String) : String :=
  event_name.getD "null" ++ "|" ++ severity.getD "null" ++ "|" ++
    String.intercalate "," (sortStr teams) ++ "|" ++
    String.intercalate "," (sortStr subsystems)

/-- Model of the `RawLogPattern` struct. -/
structure RawLogPattern where
  event_name : Option String
  severity : Option String
  teams : List String
  subsystems : List String
  signature : String
  example_line : String
  deriving DecidableEq

/-- Validity of a `HashSet<String>` collection order: `g l` enumerates the
distinct elements of `l` exactly once each, in some order.  `List.dedup l` is
one canonical such enumeration; any permutation of it is a possible iteration
order of a `HashSet` built from `l`. -/
def HashOrd (g : List String → List String) : Prop :=
  ∀ l : List String, List.Perm (g l) l.dedup

/-- Canonical hash order used to evaluate the model on concrete inputs. -/
def g0 : List String → List String := fun l => l.dedup

/-- Event-name field: first `EVENT_NAME_RE` capture, rejected by `and_then`
when it starts with `"20"` (the code's guard against date-like tokens). -/
def evName (content : List Char) : Option String :=
  match findEvInLine content with
  | some cap => if listStartsWith "20".data cap then none else some (String.mk cap)
  | none => none

/-- Subsystem captures after the filter
`!SEVERITY_TAGS.contains(&tag) && !tag.starts_with("Team_")`, before the
`HashSet` collection. -/
def subsFiltered (content : List Char) : List String :=
  (scanSubs content).filter fun t =>
    !(SEVERITY_TAGS.contains t) && !(listStartsWith "Team_".data t.data)

/-- Model of `extract_log_pattern`.  The parameter `g` supplies the enumeration
order of the two `HashSet<String>` collections (teams and subsystems).  The
check `!line.starts_with('<') || !TIMESTAMP_RE.is_match(line)` is equivalent to
`stripTimestamp line.data = none` because the regex is anchored and starts with
`<`. -/
def extractLogPattern (g : List String → List String) (line : String) :
    Option RawLogPattern :=
  match stripTimestamp line.data with
  | none => none
  | some content =>
    some { event_name := evName content
           severity := findSeverity content
           teams := g (scanTeams content)
           subsystems := g (subsFiltered content)
           signature := generateSignature (evName content) (findSeverity content)
             (g (scanTeams content)) (g (subsFiltered content))
           example_line := line }

/-- The fixed `EVENT_MARKERS` table, transcribed verbatim. -/
def EVENT_MARKERS : List String :=
  [ "AccountLoginCharacterStatus_Character",
    "<RequestLocationInventory>",
    "<EquipItem>",
    "<AttachmentReceived>",
    "<Vehicle Control Flow>",
    "<[ActorState] Place>",
    "<Quantum Drive Arrived",
    "<Jump Drive Requesting State Change>",
    "Destruction>",
    "<Actor Death>",
    "<[ActorState] Dead>",
    "<FatalCollision>",
    "<[STAMINA]",
    "<MissionShared>",
    "<ObjectiveUpserted>",
    "<MissionEnded>",
    "<EndMission>",
    "<CLocalMissionPhaseMarker::CreateMarker>",
    "<CEntityComponentShoppingProvider::SendStandardItemBuyRequest>",
    "<CWallet::ProcessClaimToNextStep>",
    "<CLandingArea::OnDoorOpenStateChanged>",
    "<CSCItemDockingTube::OnSetTubeState>",
    "<CSCLoadingPlatformManager>",
    "<Spawn Flow>",
    "<CEntity::OnOwnerRemoved>",
    "<SystemQuit>",
    "<Failed to get starmap route data!>" ]

/-- Model of `contains_event_marker`:
`EVENT_MARKERS.iter().any(|marker| line.contains(marker))`. -/
def containsEventMarker (line : String) : Bool :=
  EVENT_MARKERS.any fun m => containsSub m.data line.data

/-- Model of the player-name extraction performed per line by `read_log_update`
and `get_log_metadata`: if the line contains
`"AccountLoginCharacterStatus_Character"`, take the text after the first
`"name "` up to the next `" - "`; on any missing piece the previous value is
kept (`none` here, folded by the caller). -/
def extractPlayerName (line : String) : Option String :=
  let cs := line.data
  if containsSub "AccountLoginCharacterStatus_Character".data cs then
    match afterSub "name ".data cs with
    | some tail =>
      match findSubIdx " - ".data tail with
      | some e => some (String.mk (tail.take e))
      | none => none
    | none => none
  else none

/-- One player-name update step: a successful extraction overwrites the running
value, otherwise the running value is kept. -/
def stepName (pn : Option String) (line : String) : Option String :=
  match extractPlayerName line with
  | some n => some n
  | none => pn

/-- Model of the `LogUpdate` response struct. -/
structure LogUpdate where
  line_count : Nat
  player_name : Option String
  new_lines : List String
  patterns : List RawLogPattern
  deriving DecidableEq

/-- Model of the `LogMetadata` response struct. -/
structure LogMetadata where
  line_count : Nat
  player_name : Option String
  deriving DecidableEq

/-- Validity of a per-line family of hash orders: `read_log_update` builds two
fresh `HashSet`s per extracted line, so the enumeration order may differ from
line to line; `gf i` is the order used for the line at index `i`. -/
def HashOrdFam (gf : Nat → List String → List String) : Prop :=
  ∀ (i : Nat) (l : List String), List.Perm (gf i l) l.dedup

/-- Canonical per-line hash-order family for concrete evaluation. -/
def gf0 : Nat → List String → List String := fun _ l => l.dedup

/-- One pattern-cataloguing step of the `read_log_update` loop: when pattern
extraction is enabled and the line yields a pattern whose signature is unseen,
record the signature and append the pattern; otherwise leave both accumulators
unchanged. -/
def patStep (ep : Bool) (g : List String → List String) (line : String)
    (pats : List RawLogPattern) (seen : List String) :
    List RawLogPattern × List String :=
  if ep then
    match extractLogPattern g line with
    | some p =>
      if p.signature ∈ seen then (pats, seen)
      else (pats ++ [p], seen ++ [p.signature])
    | none => (pats, seen)
  else (pats, seen)

/-- Loop body state of `read_log_update`, written as explicit recursion over
the remaining lines.  The accumulators are `line_count`, `player_name`,
`new_lines`, `patterns` and `seen_signatures` (a `HashSet<String>` queried only
for membership, modelled as a list). -/
def readLoop (gf : Nat → List String → List String) (fromLine : Nat)
    (epn ep : Bool) :
    List String → Nat → Option String → List String → List RawLogPattern →
    List String → LogUpdate
  | [], count, pn, nl, pats, _ =>
    { line_count := count, player_name := pn, new_lines := nl, patterns := pats }
  | line :: rest, count, pn, nl, pats, seen =>
    if fromLine ≤ count then
      readLoop gf fromLine epn ep rest (count + 1)
        (if epn then stepName pn line else pn)
        (if containsEventMarker line then nl ++ [line] else nl)
        (patStep ep (gf count) line pats seen).1
        (patStep ep (gf count) line pats seen).2
    else
      readLoop gf fromLine epn ep rest (count + 1)
        (if epn then stepName pn line else pn) nl pats seen

/-- Model of `read_log_update` on a successfully opened and decoded file. -/
def readLogUpdate (gf : Nat → List String → List String) (lines : List String)
    (fromLine : Nat) (extract_player_name extract_patterns : Bool) : LogUpdate :=
  readLoop gf fromLine extract_player_name extract_patterns lines 0 none [] [] []

/-- Loop of `get_log_metadata`: counts lines and keeps the most recent
successful player-name extraction. -/
def metaLoop : List String → Nat → Option String → LogMetadata
  | [], count, pn => { line_count := count, player_name := pn }
  | line :: rest, count, pn => metaLoop rest (count + 1) (stepName pn line)

/-- Model of `get_log_metadata` on a successfully opened and decoded file. -/
def getLogMetadata (lines : List String) : LogMetadata :=
  metaLoop lines 0 none

/-- Loop of `read_log_lines_from`: non-blank lines at or after `from_line`. -/
def rlfLoop (fromLine : Nat) : List String → Nat → List String
  | [], _ => []
  | line :: rest, i =>
    if fromLine ≤ i && !(line.trim.isEmpty) then line :: rlfLoop fromLine rest (i + 1)
    else rlfLoop fromLine rest (i + 1)

/-- Model of `read_log_lines_from` on a successfully opened and decoded file. -/
def readLogLinesFrom (lines : List String) (fromLine : Nat) : List String :=
  rlfLoop fromLine lines 0

/-- Model of `get_line_count` on a successfully opened file: `lines().count()`
counts every yielded item, including `Err` ones (see `getLineCountCmd`). -/
def getLineCount (lines : List String) : Nat := lines.length

/-- Result of opening and streaming a file: `Except.error e` models a failed
`File::open` with OS error text `e`; on success each line item is either a
decoded line or a decode error (`io::Result<String>` from `lines()`). -/
abbrev OpenResult := Except String (List (Except String String))

/-- Sequence the per-line decode results, stopping at the first error; this is
the error behaviour of each Rust read loop (`line.map_err(...)?` aborts the
whole call at the first bad line, and no accumulated state escapes), factored
out of the loop. -/
def decodeLines : List (Except String String) → Except String (List String)
  | [] => Except.ok []
  | Except.error e :: _ => Except.error e
  | Except.ok l :: rest => (decodeLines rest).map fun ls => l :: ls

/-- Model of the full `read_log_update` command including I/O failures. -/
def readLogUpdateCmd (gf : Nat → List String → List String) (openR : OpenResult)
    (fromLine : Nat) (epn ep : Bool) : Except String LogUpdate :=
  match openR with
  | Except.error e => Except.error ("Failed to open file: " ++ e)
  | Except.ok items =>
    match decodeLines items with
    | Except.error e => Except.error ("Failed to read line: " ++ e)
    | Except.ok lines => Except.ok (readLogUpdate gf lines fromLine epn ep)

/-- Model of the full `get_log_metadata` command including I/O failures. -/
def getLogMetadataCmd (openR : OpenResult) : Except String LogMetadata :=
  match openR with
  | Except.error e => Except.error ("Failed to open file: " ++ e)
  | Except.ok items =>
    match decodeLines items with
    | Except.error e => Except.error ("Failed to read line: " ++ e)
    | Except.ok lines => Except.ok (getLogMetadata lines)

/-- Model of the full `read_log_lines_from` command including I/O failures. -/
def readLogLinesFromCmd (openR : OpenResult) (fromLine : Nat) :
    Except String (List String) :=
  match openR with
  | Except.error e => Except.error ("Failed to open file: " ++ e)
  | Except.ok items =>
    match decodeLines items with
    | Except.error e => Except.error ("Failed to read line: " ++ e)
    | Except.ok lines => Except.ok (readLogLinesFrom lines fromLine)

/-- Model of the full `get_line_count` command: `Ok(reader.lines().count())`
counts the yielded items without inspecting them, so a line that fails to
decode is counted rather than propagated as an error — only `File::open`
failures surface. -/
def getLineCountCmd (openR : OpenResult) : Except String Nat :=
  match openR with
  | Except.error e => Except.error ("Failed to open file: " ++ e)
  | Except.ok items => Except.ok items.length

/-- Specification-level pattern stream: the per-line extraction results, in
document order, for lines at index at least the watermark. -/
def patStream (gf : Nat → List String → List String) (fromLine : Nat) :
    List String → Nat → List RawLogPattern
  | [], _ => []
  | line :: rest, i =>
    if fromLine ≤ i then
      match extractLogPattern (gf i) line with
      | some p => p :: patStream gf fromLine rest (i + 1)
      | none => patStream gf fromLine rest (i + 1)
    else patStream gf fromLine rest (i + 1)

/-- Specification-level catalogue: keep the first pattern seen for each
signature, discarding later ones silently. -/
def dedupFirst (seen : List String) : List RawLogPattern → List RawLogPattern
  | [] => []
  | p :: ps =>
    if p.signature ∈ seen then dedupFirst seen ps
    else p :: dedupFirst (seen ++ [p.signature]) ps

/-- Specification-level marker-filtered line stream of `read_log_update`. -/
def markerLines (fromLine : Nat) : List String → Nat → List String
  | [], _ => []
  | line :: rest, i =>
    if fromLine ≤ i && containsEventMarker line then
      line :: markerLines fromLine rest (i + 1)
    else markerLines fromLine rest (i + 1)

/-- Specification-level player name: scanning from the end of the file, the
first line whose extraction succeeds supplies the name (most recent wins). -/
def specPlayerName (lines : List String) : Option String :=
  lines.foldr
    (fun line acc =>
      match acc with
      | some x => some x
      | none => extractPlayerName line)
    none

/-- Equivalence of two patterns up to the enumeration order of their `HashSet`
collected tag vectors: all scalar fields agree and the tag vectors agree as
sets. -/
def PatternEquiv (p q : RawLogPattern) : Prop :=
  p.event_name = q.event_name ∧ p.severity = q.severity ∧
  List.Perm p.teams q.teams ∧ List.Perm p.subsystems q.subsystems ∧
  p.signature = q.signature ∧ p.example_line = q.example_line

/-- Option-lifted `PatternEquiv`. -/
def optPatEquiv : Option RawLogPattern → Option RawLogPattern → Prop
  | some p, some q => PatternEquiv p q
  | none, none => True
  | _, _ => False

/-- Concrete file with two login lines naming Alice and then Bob. -/
def fileAliceBob : List String :=
  [ "<2025-01-01T10:00:00.000Z> [Notice] AccountLoginCharacterStatus_Character - name Alice - state STANDING",
    "<2025-01-01T11:00:00.000Z> random noise line",
    "<2025-01-01T12:00:00.000Z> [Notice] AccountLoginCharacterStatus_Character - name Bob - state STANDING" ]

/-- Concrete two-line file whose lines carry identical tags but different
message bodies. -/
def fileSameTags : List String :=
  [ "<2024-01-01T12:00:00.000Z> [Notice] <EventA> message 1",
    "<2024-01-01T12:00:00.000Z> [Notice] <EventA> message 2" ]

/-- Concrete single-line file whose line carries two distinct team tags. -/
def fileTwoTeams : List String :=
  ["<2024-01-01T12:00:00.000Z> [Team_A] [Team_B] x"]

/-- Hash-order family enumerating each `HashSet` in reversed canonical order;
a permutation of `List.dedup`, hence a legal iteration order. -/
def gfRev : Nat → List String → List String := fun _ l => l.dedup.reverse

/-- Concrete line without a timestamp (from the Rust unit tests). -/
def lineNoTs : String := "[Notice] <TestEvent> Some log message without timestamp"

/-- Concrete timestamped line carrying severity-named bracket tokens. -/
def lineSev : String := "<2024-01-01T12:00:00.000Z> [Notice] [Error] [Physics] msg"

/-- Expected extraction result for `lineSev` under the canonical hash order. -/
def patSev : RawLogPattern :=
  { event_name := none
    severity := some "Notice"
    teams := []
    subsystems := ["Physics"]
    signature := "null|Notice||Physics"
    example_line := lineSev }

/-- Concrete timestamped line with a malformed team tag `[Team_Blue2]`. -/
def lineTeamDigit : String := "<2024-01-01T12:00:00.000Z> [Team_Blue2] msg"

/-- Expected extraction result for `lineTeamDigit`: the malformed team token is
in neither tag vector. -/
def patTeamDigit : RawLogPattern :=
  { event_name := none
    severity := none
    teams := []
    subsystems := []
    signature := "null|null||"
    example_line := lineTeamDigit }

/-! Helper lemmas. -/

/-- Sorting is invariant under permutation of the input. -/
theorem sortStr_eq_of_perm {l1 l2 : List String} (h : List.Perm l1 l2) :
    sortStr l1 = sortStr l2 := by
  unfold sortStr
  refine List.eq_of_perm_of_sorted ?_ (List.sorted_insertionSort _ l1)
    (List.sorted_insertionSort _ l2)
  exact ((List.perm_insertionSort _ l1).trans h).trans
    (List.perm_insertionSort _ l2).symm

/-- The canonical hash order is valid. -/
theorem hashOrd_g0 : HashOrd g0 := fun _ => List.Perm.refl _

/-- The canonical per-line hash-order family is valid. -/
theorem hashOrdFam_gf0 : HashOrdFam gf0 := fun _ _ => List.Perm.refl _

/-- The reversed hash-order family is valid: each `HashSet` is enumerated in
the reverse of the canonical order, still visiting each element once. -/
theorem hashOrdFam_gfRev : HashOrdFam gfRev := fun _ l => List.reverse_perm l.dedup

/-! Claim C3. -/

/-- C3: `generate_signature` is invariant under reordering of the team and the
subsystem tag vectors, for every event name and severity. -/
theorem generateSignature_perm_invariant (e s : Option String)
    {t1 t2 u1 u2 : List String} (ht : List.Perm t1 t2) (hu : List.Perm u1 u2) :
    generateSignature e s t1 u1 = generateSignature e s t2 u2 := by
  unfold generateSignature
  rw [sortStr_eq_of_perm ht, sortStr_eq_of_perm hu]

/-- Witness for C3 at a concrete reordering. -/
theorem generateSignature_perm_invariant_witness :
    List.Perm ["B", "A"] ["A", "B"] ∧ List.Perm ["Z", "Y"] ["Y", "Z"] ∧
    generateSignature (some "Event") none ["B", "A"] ["Z", "Y"] =
      generateSignature (some "Event") none ["A", "B"] ["Y", "Z"] :=
  ⟨by decide, by decide,
    generateSignature_perm_invariant (some "Event") none (by decide) (by decide)⟩

/-! Claim C4. -/

/-- C4: a line that does not begin with the recognized timestamp of
`TIMESTAMP_RE` never yields a pattern, regardless of its remaining content and
of the hash order in use. -/
theorem extractLogPattern_none_of_no_timestamp
    (g : List String → List String) (line : String)
    (h : stripTimestamp line.data = none) : extractLogPattern g line = none := by
  unfold extractLogPattern
  rw [h]

/-- Witness for C4 at a concrete timestampless line from the Rust tests. -/
theorem extractLogPattern_none_of_no_timestamp_witness :
    stripTimestamp lineNoTs.data = none ∧ extractLogPattern g0 lineNoTs = none :=
  ⟨by decide, extractLogPattern_none_of_no_timestamp g0 lineNoTs (by decide)⟩

/-! Substring lemmas for the marker filter. -/

/-- Correctness of the prefix test. -/
theorem listStartsWith_iff (p : List Char) : ∀ l : List Char,
    (listStartsWith p l = true ↔ ∃ t, l = p ++ t) := by
  induction p with
  | nil =>
    intro l
    simp [listStartsWith]
  | cons a ps ih =>
    intro l
    cases l with
    | nil =>
      simp [listStartsWith]
    | cons c cs =>
      simp only [listStartsWith, Bool.and_eq_true, beq_iff_eq, ih cs]
      constructor
      · rintro ⟨rfl, t, rfl⟩
        exact ⟨t, rfl⟩
      · rintro ⟨t, ht⟩
        cases ht
        exact ⟨rfl, t, rfl⟩

/-- Correctness of the substring test: `containsSub pat l` holds exactly when
`pat` occurs contiguously inside `l`. -/
theorem containsSub_iff (p : List Char) : ∀ l : List Char,
    (containsSub p l = true ↔ ∃ u v, l = u ++ p ++ v) := by
  intro l
  induction l with
  | nil =>
    simp only [containsSub, listStartsWith_iff]
    constructor
    · rintro ⟨t, ht⟩
      exact ⟨[], t, ht⟩
    · rintro ⟨u, v, huv⟩
      rcases List.append_eq_nil.mp (List.append_eq_nil.mp huv.symm).1 with ⟨rfl, rfl⟩
      exact ⟨v, huv⟩
  | cons c cs ih =>
    simp only [containsSub, Bool.or_eq_true, listStartsWith_iff, ih]
    constructor
    · rintro (⟨t, ht⟩ | ⟨u, v, huv⟩)
      · exact ⟨[], t, ht⟩
      · exact ⟨c :: u, v, by simp [huv]⟩
    · rintro ⟨u, v, huv⟩
      cases u with
      | nil => exact Or.inl ⟨v, by simpa using huv⟩
      | cons b u2 =>
        right
        refine ⟨u2, v, ?_⟩
        have h2 : c = b ∧ cs = u2 ++ (p ++ v) := by simpa using huv
        simp [h2.2]

/-! Claim C7. -/

/-- C7: `contains_event_marker` returns true exactly when some entry of the
fixed `EVENT_MARKERS` table occurs in the line as a literal contiguous
substring; in particular the partial-word marker matches the vehicle
destruction example. -/
theorem containsEventMarker_iff :
    (∀ line : String,
      (containsEventMarker line = true ↔
        ∃ m ∈ EVENT_MARKERS, ∃ u v, line.data = u ++ m.data ++ v)) ∧
    containsEventMarker "<Vehicle Destruction> ship exploded" = true := by
  constructor
  · intro line
    unfold containsEventMarker
    rw [List.any_eq_true]
    constructor
    · rintro ⟨m, hm, hc⟩
      exact ⟨m, hm, (containsSub_iff m.data line.data).mp hc⟩
    · rintro ⟨m, hm, hocc⟩
      exact ⟨m, hm, (containsSub_iff m.data line.data).mpr hocc⟩
  · decide

/-! Claims C6 and C10: the subsystem filter. -/

/-- Membership transfer through a valid hash order. -/
theorem mem_of_hashOrd {g : List String → List String} (hg : HashOrd g)
    {t : String} {l : List String} (ht : t ∈ g l) : t ∈ l :=
  List.mem_dedup.mp ((hg l).mem_iff.mp ht)

/-- Subsystem vectors only contain filtered subsystem captures. -/
theorem mem_subsFiltered_of_extract {g : List String → List String}
    (hg : HashOrd g) {line : String} {p : RawLogPattern}
    (hp : extractLogPattern g line = some p) {t : String}
    (ht : t ∈ p.subsystems) :
    ∃ content, stripTimestamp line.data = some content ∧
      t ∈ subsFiltered content := by
  unfold extractLogPattern at hp
  cases h : stripTimestamp line.data with
  | none => rw [h] at hp; cases hp
  | some content =>
    rw [h] at hp
    have hsub : p.subsystems = g (subsFiltered content) :=
      congrArg RawLogPattern.subsystems (Option.some.inj hp).symm
    rw [hsub] at ht
    exact ⟨content, rfl, mem_of_hashOrd hg ht⟩

/-- C6: a severity token never appears in the subsystem vector of an extracted
pattern, whatever the hash order. -/
theorem subsystems_no_severity {g : List String → List String} (hg : HashOrd g)
    (line : String) (p : RawLogPattern)
    (hp : extractLogPattern g line = some p) :
    ∀ t ∈ p.subsystems, t ∉ SEVERITY_TAGS := by
  intro t ht hmem
  obtain ⟨content, -, htf⟩ := mem_subsFiltered_of_extract hg hp ht
  have hcond := (List.mem_filter.mp htf).2
  simp only [Bool.and_eq_true, Bool.not_eq_true'] at hcond
  have hc : SEVERITY_TAGS.contains t = true := List.elem_eq_true_of_mem hmem
  rw [hc] at hcond
  exact Bool.true_eq_false.mp hcond.1

/-- Witness for C6 at a line carrying severity-named bracket tokens. -/
theorem subsystems_no_severity_witness :
    HashOrd g0 ∧ extractLogPattern g0 lineSev = some patSev ∧
    ∀ t ∈ patSev.subsystems, t ∉ SEVERITY_TAGS :=
  ⟨hashOrd_g0, by decide,
    subsystems_no_severity hashOrd_g0 lineSev patSev (by decide)⟩

/-- C10: a bracketed token starting with `"Team_"` never appears in the
subsystem vector, and in particular the malformed team token `[Team_Blue2]`
(not matched by `TEAM_TAG_RE`) appears in neither the team nor the subsystem
vector of its line. -/
theorem subsystems_no_team_tokens :
    (∀ (g : List String → List String), HashOrd g →
      ∀ (line : String) (p : RawLogPattern), extractLogPattern g line = some p →
      ∀ t ∈ p.subsystems, listStartsWith "Team_".data t.data = false) ∧
    extractLogPattern g0 lineTeamDigit = some patTeamDigit := by
  constructor
  · intro g hg line p hp t ht
    obtain ⟨content, -, htf⟩ := mem_subsFiltered_of_extract hg hp ht
    have hcond := (List.mem_filter.mp htf).2
    simp only [Bool.and_eq_true, Bool.not_eq_true'] at hcond
    exact hcond.2
  · decide

/-- Witness for C10 at the malformed team-token line. -/
theorem subsystems_no_team_tokens_witness :
    HashOrd g0 ∧ extractLogPattern g0 lineTeamDigit = some patTeamDigit ∧
    ∀ t ∈ patTeamDigit.subsystems, listStartsWith "Team_".data t.data = false :=
  ⟨hashOrd_g0, by decide,
    subsystems_no_team_tokens.1 g0 hashOrd_g0 lineTeamDigit patTeamDigit
      (by decide)⟩

/-! Characterizations of the read loops. -/

/-- The line counter of the loop counts every physical line. -/
theorem readLoop_line_count (gf : Nat → List String → List String)
    (fromLine : Nat) (epn ep : Bool) : ∀ (rest : List String) (count : Nat)
    (pn : Option String) (nl : List String) (pats : List RawLogPattern)
    (seen : List String),
    (readLoop gf fromLine epn ep rest count pn nl pats seen).line_count =
      count + rest.length := by
  intro rest
  induction rest with
  | nil => intro count pn nl pats seen; simp [readLoop]
  | cons line rest ih =>
    intro count pn nl pats seen
    simp only [readLoop]
    split
    · rw [ih]; simp; omega
    · rw [ih]; simp; omega

/-- The player name of the loop is the left fold of `stepName` over the lines
when extraction is requested, and the initial value otherwise. -/
theorem readLoop_player (gf : Nat → List String → List String)
    (fromLine : Nat) (epn ep : Bool) : ∀ (rest : List String) (count : Nat)
    (pn : Option String) (nl : List String) (pats : List RawLogPattern)
    (seen : List String),
    (readLoop gf fromLine epn ep rest count pn nl pats seen).player_name =
      (if epn then rest.foldl stepName pn else pn) := by
  intro rest
  induction rest with
  | nil => intro count pn nl pats seen; cases epn <;> simp [readLoop]
  | cons line rest ih =>
    intro count pn nl pats seen
    simp only [readLoop]
    cases epn with
    | false => split <;> simp [ih]
    | true => split <;> simp [ih]

/-- The emitted lines of the loop are the marker-filtered lines at or after the
watermark, appended to the accumulator. -/
theorem readLoop_new_lines (gf : Nat → List String → List String)
    (fromLine : Nat) (epn ep : Bool) : ∀ (rest : List String) (count : Nat)
    (pn : Option String) (nl : List String) (pats : List RawLogPattern)
    (seen : List String),
    (readLoop gf fromLine epn ep rest count pn nl pats seen).new_lines =
      nl ++ markerLines fromLine rest count := by
  intro rest
  induction rest with
  | nil => intro count pn nl pats seen; simp [readLoop, markerLines]
  | cons line rest ih =>
    intro count pn nl pats seen
    simp only [readLoop, markerLines]
    by_cases hwm : fromLine ≤ count
    · by_cases hm : containsEventMarker line
      · simp [hwm, hm, ih]
      · simp [hwm, hm, ih]
    · simp [hwm, ih]

/-- With pattern extraction disabled the loop returns its pattern accumulator
unchanged. -/
theorem readLoop_patterns_false (gf : Nat → List String → List String)
    (fromLine : Nat) (epn : Bool) : ∀ (rest : List String) (count : Nat)
    (pn : Option String) (nl : List String) (pats : List RawLogPattern)
    (seen : List String),
    (readLoop gf fromLine epn false rest count pn nl pats seen).patterns =
      pats := by
  intro rest
  induction rest with
  | nil => intro count pn nl pats seen; simp [readLoop]
  | cons line rest ih =>
    intro count pn nl pats seen
    simp only [readLoop, patStep]
    split <;> simp [ih]

/-- Refinement of the pattern catalogue: the loop's patterns are the
first-seen-per-signature deduplication of the per-line extraction stream. -/
theorem readLoop_patterns (gf : Nat → List String → List String)
    (fromLine : Nat) (epn : Bool) : ∀ (rest : List String) (count : Nat)
    (pn : Option String) (nl : List String) (pats : List RawLogPattern)
    (seen : List String),
    (readLoop gf fromLine epn true rest count pn nl pats seen).patterns =
      pats ++ dedupFirst seen (patStream gf fromLine rest count) := by
  intro rest
  induction rest with
  | nil => intro count pn nl pats seen; simp [readLoop, patStream, dedupFirst]
  | cons line rest ih =>
    intro count pn nl pats seen
    simp only [readLoop, patStream, patStep]
    by_cases hwm : fromLine ≤ count
    · simp only [hwm, if_true]
      cases hx : extractLogPattern (gf count) line with
      | none => simp [ih]
      | some p =>
        by_cases hs : p.signature ∈ seen
        · simp [hs, ih, dedupFirst]
        · simp [hs, ih, dedupFirst]
    · simp [hwm, ih]

/-- The metadata loop counts every line. -/
theorem metaLoop_line_count : ∀ (rest : List String) (count : Nat)
    (pn : Option String),
    (metaLoop rest count pn).line_count = count + rest.length := by
  intro rest
  induction rest with
  | nil => intro count pn; simp [metaLoop]
  | cons line rest ih =>
    intro count pn
    simp only [metaLoop]
    rw [ih]; simp; omega

/-- The metadata loop's player name is the left fold of `stepName`. -/
theorem metaLoop_player : ∀ (rest : List String) (count : Nat)
    (pn : Option String),
    (metaLoop rest count pn).player_name = rest.foldl stepName pn := by
  intro rest
  induction rest with
  | nil => intro count pn; simp [metaLoop]
  | cons line rest ih => intro count pn; simp [metaLoop, ih]

/-- The left fold of `stepName` returns the most recent successful extraction,
falling back to its initial value. -/
theorem foldl_stepName : ∀ (lines : List String) (pn : Option String),
    lines.foldl stepName pn =
      (match specPlayerName lines with
       | some x => some x
       | none => pn) := by
  intro lines
  induction lines with
  | nil => intro pn; simp [specPlayerName]
  | cons line rest ih =>
    intro pn
    simp only [List.foldl_cons, specPlayerName, List.foldr_cons]
    rw [ih]
    cases hrest : specPlayerName rest with
    | some x => simp [specPlayerName] at hrest; simp [hrest]
    | none =>
      simp [specPlayerName] at hrest
      simp only [hrest]
      cases hline : extractPlayerName line <;> simp [stepName, hline]

/-! Claim C2. -/

/-- C2: with player-name extraction requested, `read_log_update` returns the
name extracted from the most recent line of the whole file whose login-marker
extraction succeeds — independent of the watermark and of the hash order — and
on the Alice-then-Bob file it returns `"Bob"` for every watermark. -/
theorem readLogUpdate_player_most_recent
    (gf : Nat → List String → List String) (lines : List String)
    (fromLine : Nat) (ep : Bool) :
    (readLogUpdate gf lines fromLine true ep).player_name =
      specPlayerName lines ∧
    (readLogUpdate gf fileAliceBob fromLine true ep).player_name =
      some "Bob" := by
  have hgen : ∀ ls : List String,
      (readLogUpdate gf ls fromLine true ep).player_name = specPlayerName ls := by
    intro ls
    unfold readLogUpdate
    rw [readLoop_player, if_pos rfl, foldl_stepName]
    cases specPlayerName ls <;> rfl
  refine ⟨hgen lines, ?_⟩
  rw [hgen fileAliceBob]
  decide

/-! Claim C8. -/

/-- C8: `get_log_metadata` returns the same total line count and player name as
`read_log_update` with player extraction enabled, for every watermark;
`get_line_count` returns the same count; and the count is always the file's
total number of lines. -/
theorem getLogMetadata_agrees (gf : Nat → List String → List String)
    (lines : List String) (fromLine : Nat) (ep : Bool) :
    (getLogMetadata lines).line_count =
      (readLogUpdate gf lines fromLine true ep).line_count ∧
    (getLogMetadata lines).player_name =
      (readLogUpdate gf lines fromLine true ep).player_name ∧
    getLineCount lines = (getLogMetadata lines).line_count ∧
    (getLogMetadata lines).line_count = lines.length := by
  refine ⟨?_, ?_, ?_, ?_⟩
  · unfold getLogMetadata readLogUpdate
    rw [metaLoop_line_count, readLoop_line_count]
  · unfold getLogMetadata readLogUpdate
    rw [metaLoop_player, readLoop_player, if_pos rfl]
  · unfold getLineCount getLogMetadata
    rw [metaLoop_line_count]; simp
  · unfold getLogMetadata
    rw [metaLoop_line_count]; simp

/-! Properties of the first-seen deduplication. -/

/-- A pattern surviving deduplication has an unseen signature. -/
theorem mem_dedupFirst_not_seen : ∀ (s : List RawLogPattern)
    (seen : List String) (p : RawLogPattern),
    p ∈ dedupFirst seen s → p.signature ∉ seen := by
  intro s
  induction s with
  | nil => intro seen p h; simp [dedupFirst] at h
  | cons q qs ih =>
    intro seen p h
    simp only [dedupFirst] at h
    split at h
    · exact ih seen p h
    · rcases List.mem_cons.mp h with rfl | hmem
      · assumption
      · intro hc
        exact ih (seen ++ [q.signature]) p hmem (List.mem_append_left _ hc)

/-- Deduplicated signatures are pairwise distinct. -/
theorem dedupFirst_sig_nodup : ∀ (s : List RawLogPattern) (seen : List String),
    ((dedupFirst seen s).map (fun p => p.signature)).Nodup := by
  intro s
  induction s with
  | nil => intro seen; simp [dedupFirst]
  | cons q qs ih =>
    intro seen
    simp only [dedupFirst]
    split
    · exact ih seen
    · simp only [List.map_cons, List.nodup_cons]
      refine ⟨?_, ih (seen ++ [q.signature])⟩
      intro hmem
      rcases List.mem_map.mp hmem with ⟨r, hr, hsig⟩
      exact mem_dedupFirst_not_seen _ _ _ hr
        (List.mem_append_right _ (by simp [hsig]))

/-- Each surviving pattern is the first element of the stream carrying its
signature: later lines with an already-seen signature are discarded and the
first-seen example is kept. -/
theorem dedupFirst_first_occurrence : ∀ (s : List RawLogPattern)
    (seen : List String) (p : RawLogPattern), p ∈ dedupFirst seen s →
    s.find? (fun q => q.signature == p.signature) = some p := by
  intro s
  induction s with
  | nil => intro seen p h; simp [dedupFirst] at h
  | cons q qs ih =>
    intro seen p h
    simp only [dedupFirst] at h
    by_cases hq : q.signature ∈ seen
    · rw [if_pos hq] at h
      have hps := mem_dedupFirst_not_seen _ _ _ h
      have hne : ¬(q.signature == p.signature) = true := by
        simp only [beq_iff_eq]
        intro he
        exact hps (he ▸ hq)
      rw [@List.find?_cons_of_neg _ (fun r => r.signature == p.signature) q qs hne]
      exact ih seen p h
    · rw [if_neg hq] at h
      rcases List.mem_cons.mp h with rfl | hmem
      · exact List.find?_cons_of_pos _ (by simp)
      · have hps := mem_dedupFirst_not_seen _ _ _ hmem
        have hne : ¬(q.signature == p.signature) = true := by
          simp only [beq_iff_eq]
          intro he
          exact hps (List.mem_append_right _ (by simp [he]))
        rw [@List.find?_cons_of_neg _ (fun r => r.signature == p.signature) q qs hne]
        exact ih (seen ++ [q.signature]) p hmem

/-! Claim C5. -/

/-- C5: the pattern catalogue of one `read_log_update` call is exactly the
first-seen-per-signature deduplication of the per-line extraction stream; its
signatures are pairwise distinct; each entry is the first stream element with
its signature (so a later line with identical tags is silently discarded and
the first-seen example line is kept); and on the concrete two-line file with
identical tags but different bodies exactly one pattern, keyed on the first
line, is returned. -/
theorem readLogUpdate_patterns_dedup (gf : Nat → List String → List String)
    (lines : List String) (fromLine : Nat) (epn : Bool) :
    (readLogUpdate gf lines fromLine epn true).patterns =
      dedupFirst [] (patStream gf fromLine lines 0) ∧
    (((readLogUpdate gf lines fromLine epn true).patterns).map
      (fun p => p.signature)).Nodup ∧
    (∀ p ∈ (readLogUpdate gf lines fromLine epn true).patterns,
      (patStream gf fromLine lines 0).find?
        (fun q => q.signature == p.signature) = some p) ∧
    (readLogUpdate gf0 fileSameTags 0 false true).patterns =
      [{ event_name := some "EventA"
         severity := some "Notice"
         teams := []
         subsystems := []
         signature := "EventA|Notice||"
         example_line := "<2024-01-01T12:00:00.000Z> [Notice] <EventA> message 1" }] := by
  have hmain : (readLogUpdate gf lines fromLine epn true).patterns =
      dedupFirst [] (patStream gf fromLine lines 0) := by
    unfold readLogUpdate
    rw [readLoop_patterns]
    simp
  refine ⟨hmain, ?_, ?_, by decide⟩
  · rw [hmain]; exact dedupFirst_sig_nodup _ _
  · intro p hp
    rw [hmain] at hp
    exact dedupFirst_first_occurrence _ _ _ hp

/-! Claim C1: determinism up to the enumeration order of hash sets. -/

/-- Extraction results under two valid hash orders agree on everything except
possibly the enumeration order of the tag vectors; in particular the
signatures coincide, because `generate_signature` sorts both vectors. -/
theorem extract_equiv {g1 g2 : List String → List String}
    (h1 : HashOrd g1) (h2 : HashOrd g2) (line : String) :
    optPatEquiv (extractLogPattern g1 line) (extractLogPattern g2 line) := by
  unfold extractLogPattern
  cases h : stripTimestamp line.data with
  | none => exact trivial
  | some content =>
    refine ⟨rfl, rfl, (h1 (scanTeams content)).trans (h2 (scanTeams content)).symm,
      (h1 (subsFiltered content)).trans (h2 (subsFiltered content)).symm, ?_, rfl⟩
    show generateSignature (evName content) (findSeverity content)
        (g1 (scanTeams content)) (g1 (subsFiltered content)) =
      generateSignature (evName content) (findSeverity content)
        (g2 (scanTeams content)) (g2 (subsFiltered content))
    unfold generateSignature
    rw [sortStr_eq_of_perm ((h1 (scanTeams content)).trans
          (h2 (scanTeams content)).symm),
        sortStr_eq_of_perm ((h1 (subsFiltered content)).trans
          (h2 (subsFiltered content)).symm)]

/-- The per-line extraction streams under two valid hash-order families are
pointwise equivalent. -/
theorem patStream_equiv {gf1 gf2 : Nat → List String → List String}
    (h1 : HashOrdFam gf1) (h2 : HashOrdFam gf2) (fromLine : Nat) :
    ∀ (rest : List String) (i : Nat),
    List.Forall₂ PatternEquiv (patStream gf1 fromLine rest i)
      (patStream gf2 fromLine rest i) := by
  intro rest
  induction rest with
  | nil => intro i; simp [patStream]
  | cons line rest ih =>
    intro i
    simp only [patStream]
    split
    · have he := extract_equiv (fun l => h1 i l) (fun l => h2 i l) line
      cases hx : extractLogPattern (gf1 i) line with
      | none =>
        cases hy : extractLogPattern (gf2 i) line with
        | none => exact ih (i + 1)
        | some q => rw [hx, hy] at he; exact absurd he (by simp [optPatEquiv])
      | some p =>
        cases hy : extractLogPattern (gf2 i) line with
        | none => rw [hx, hy] at he; exact absurd he (by simp [optPatEquiv])
        | some q =>
          rw [hx, hy] at he
          exact List.Forall₂.cons he (ih (i + 1))
    · exact ih (i + 1)

/-- First-seen deduplication preserves pointwise equivalence, because
equivalent patterns carry equal signatures. -/
theorem dedupFirst_equiv : ∀ {s1 s2 : List RawLogPattern},
    List.Forall₂ PatternEquiv s1 s2 → ∀ seen : List String,
    List.Forall₂ PatternEquiv (dedupFirst seen s1) (dedupFirst seen s2) := by
  intro s1 s2 h
  induction h with
  | nil => intro seen; simp [dedupFirst]
  | @cons p q t1 t2 hpq ht ih =>
    intro seen
    have hsig : p.signature = q.signature := hpq.2.2.2.2.1
    simp only [dedupFirst, hsig]
    split
    · exact ih seen
    · exact List.Forall₂.cons hpq (ih (seen ++ [q.signature]))

/-- C1 counterexample: two legal `HashSet` enumeration orders yield unequal
`read_log_update` results on the same unchanged file and arguments — the team
vectors come back in different orders — so results are not identical
vector-for-vector across calls. -/
theorem readLogUpdate_order_dependent :
    HashOrdFam gf0 ∧ HashOrdFam gfRev ∧
    readLogUpdate gf0 fileTwoTeams 0 false true ≠
      readLogUpdate gfRev fileTwoTeams 0 false true :=
  ⟨hashOrdFam_gf0, hashOrdFam_gfRev, by decide⟩

/-- C1 amended: two calls of `read_log_update` with identical arguments on an
unchanged file agree on the line count, the player name and the emitted lines,
and produce pattern catalogues of the same length that agree pointwise on
event name, severity, signature and example line, with the teams and
subsystems vectors equal up to enumeration order. -/
theorem readLogUpdate_deterministic_up_to_tag_order
    (gf1 gf2 : Nat → List String → List String)
    (h1 : HashOrdFam gf1) (h2 : HashOrdFam gf2) (lines : List String)
    (fromLine : Nat) (epn ep : Bool) :
    (readLogUpdate gf1 lines fromLine epn ep).line_count =
      (readLogUpdate gf2 lines fromLine epn ep).line_count ∧
    (readLogUpdate gf1 lines fromLine epn ep).player_name =
      (readLogUpdate gf2 lines fromLine epn ep).player_name ∧
    (readLogUpdate gf1 lines fromLine epn ep).new_lines =
      (readLogUpdate gf2 lines fromLine epn ep).new_lines ∧
    List.Forall₂ PatternEquiv (readLogUpdate gf1 lines fromLine epn ep).patterns
      (readLogUpdate gf2 lines fromLine epn ep).patterns := by
  refine ⟨?_, ?_, ?_, ?_⟩
  · unfold readLogUpdate
    rw [readLoop_line_count, readLoop_line_count]
  · unfold readLogUpdate
    rw [readLoop_player, readLoop_player]
  · unfold readLogUpdate
    rw [readLoop_new_lines, readLoop_new_lines]
  · cases ep with
    | false =>
      unfold readLogUpdate
      rw [readLoop_patterns_false, readLoop_patterns_false]
      exact List.Forall₂.nil
    | true =>
      unfold readLogUpdate
      rw [readLoop_patterns, readLoop_patterns]
      simp only [List.nil_append]
      exact dedupFirst_equiv (patStream_equiv h1 h2 fromLine lines 0) []

/-- Witness for the amended C1 at a concrete file and concrete hash orders. -/
theorem readLogUpdate_deterministic_up_to_tag_order_witness :
    HashOrdFam gf0 ∧ HashOrdFam gfRev ∧
    ((readLogUpdate gf0 fileTwoTeams 0 false true).line_count =
      (readLogUpdate gfRev fileTwoTeams 0 false true).line_count ∧
     (readLogUpdate gf0 fileTwoTeams 0 false true).player_name =
      (readLogUpdate gfRev fileTwoTeams 0 false true).player_name ∧
     (readLogUpdate gf0 fileTwoTeams 0 false true).new_lines =
      (readLogUpdate gfRev fileTwoTeams 0 false true).new_lines ∧
     List.Forall₂ PatternEquiv
       (readLogUpdate gf0 fileTwoTeams 0 false true).patterns
       (readLogUpdate gfRev fileTwoTeams 0 false true).patterns) :=
  ⟨hashOrdFam_gf0, hashOrdFam_gfRev,
    readLogUpdate_deterministic_up_to_tag_order gf0 gfRev hashOrdFam_gf0
      hashOrdFam_gfRev fileTwoTeams 0 false true⟩

/-! Claim C9: error behaviour of the four commands. -/

/-- Decoding a fully valid line stream succeeds with the decoded lines. -/
theorem decodeLines_map_ok : ∀ lines : List String,
    decodeLines (lines.map Except.ok) = Except.ok lines := by
  intro lines
  induction lines with
  | nil => rfl
  | cons l rest ih => simp [decodeLines, ih, Except.map]

/-- Decoding a stream containing an undecodable item fails. -/
theorem decodeLines_error_of_bad : ∀ items : List (Except String String),
    (∃ x ∈ items, ∀ s : String, x ≠ Except.ok s) →
    ∃ e, decodeLines items = Except.error e := by
  intro items
  induction items with
  | nil => rintro ⟨x, hx, -⟩; cases hx
  | cons it rest ih =>
    rintro ⟨x, hx, hbad⟩
    cases it with
    | error e => exact ⟨e, rfl⟩
    | ok l =>
      rcases List.mem_cons.mp hx with rfl | hmem
      · exact absurd rfl (hbad l)
      · obtain ⟨e, he⟩ := ih ⟨x, hmem, hbad⟩
        exact ⟨e, by simp [decodeLines, he, Except.map]⟩

/-- C9 counterexample: `get_line_count` does not fail on a line that cannot be
decoded as valid text — `lines().count()` counts the `Err` item and the call
returns `Ok(1)` instead of an I/O error. -/
theorem getLineCount_ignores_decode_errors :
    getLineCountCmd
        (Except.ok [Except.error "stream did not contain valid UTF-8"]) =
      Except.ok 1 ∧
    ∀ msg : String,
      getLineCountCmd
          (Except.ok [Except.error "stream did not contain valid UTF-8"]) ≠
        Except.error msg :=
  ⟨rfl, fun _ h => Except.noConfusion h⟩

/-- C9 amended: `read_log_update`, `get_log_metadata` and
`read_log_lines_from` fail atomically with a descriptive I/O error message
when the file cannot be opened or some line cannot be decoded, returning no
partial results; `get_line_count` fails only when the file cannot be opened
and otherwise counts every line, decodable or not; and on fully decoded input
all four succeed, with benign conditions such as an empty file yielding empty
or absent values rather than errors. -/
theorem io_error_atomicity (gf : Nat → List String → List String)
    (fromLine : Nat) (epn ep : Bool) :
    (∀ e : String,
      readLogUpdateCmd gf (Except.error e) fromLine epn ep =
        Except.error ("Failed to open file: " ++ e) ∧
      getLogMetadataCmd (Except.error e) =
        Except.error ("Failed to open file: " ++ e) ∧
      readLogLinesFromCmd (Except.error e) fromLine =
        Except.error ("Failed to open file: " ++ e) ∧
      getLineCountCmd (Except.error e) =
        Except.error ("Failed to open file: " ++ e)) ∧
    (∀ items : List (Except String String),
      (∃ x ∈ items, ∀ s : String, x ≠ Except.ok s) →
      ∃ e,
        readLogUpdateCmd gf (Except.ok items) fromLine epn ep =
          Except.error ("Failed to read line: " ++ e) ∧
        getLogMetadataCmd (Except.ok items) =
          Except.error ("Failed to read line: " ++ e) ∧
        readLogLinesFromCmd (Except.ok items) fromLine =
          Except.error ("Failed to read line: " ++ e) ∧
        getLineCountCmd (Except.ok items) = Except.ok items.length) ∧
    (∀ lines : List String,
      readLogUpdateCmd gf (Except.ok (lines.map Except.ok)) fromLine epn ep =
        Except.ok (readLogUpdate gf lines fromLine epn ep) ∧
      getLogMetadataCmd (Except.ok (lines.map Except.ok)) =
        Except.ok (getLogMetadata lines) ∧
      readLogLinesFromCmd (Except.ok (lines.map Except.ok)) fromLine =
        Except.ok (readLogLinesFrom lines fromLine) ∧
      getLineCountCmd (Except.ok (lines.map Except.ok)) =
        Except.ok (getLineCount lines)) ∧
    readLogUpdate gf [] fromLine epn ep =
      { line_count := 0, player_name := none, new_lines := [], patterns := [] } := by
  refine ⟨?_, ?_, ?_, rfl⟩
  · intro e
    exact ⟨rfl, rfl, rfl, rfl⟩
  · intro items hbad
    obtain ⟨e, he⟩ := decodeLines_error_of_bad items hbad
    refine ⟨e, ?_, ?_, ?_, rfl⟩
    · simp [readLogUpdateCmd, he]
    · simp [getLogMetadataCmd, he]
    · simp [readLogLinesFromCmd, he]
  · intro lines
    refine ⟨?_, ?_, ?_, ?_⟩
    · simp [readLogUpdateCmd, decodeLines_map_ok]
    · simp [getLogMetadataCmd, decodeLines_map_ok]
    · simp [readLogLinesFromCmd, decodeLines_map_ok]
    · simp [getLineCountCmd, getLineCount]

/-- Witness for the amended C9 at a concrete undecodable stream. -/
theorem io_error_atomicity_witness :
    (∃ x ∈ [Except.error "bad", Except.ok "line"],
      ∀ s : String, x ≠ Except.ok s) ∧
    ∃ e,
      readLogUpdateCmd gf0
          (Except.ok [Except.error "bad", Except.ok "line"]) 0 true true =
        Except.error ("Failed to read line: " ++ e) ∧
      getLogMetadataCmd (Except.ok [Except.error "bad", Except.ok "line"]) =
        Except.error ("Failed to read line: " ++ e) ∧
      readLogLinesFromCmd
          (Except.ok [Except.error "bad", Except.ok "line"]) 0 =
        Except.error ("Failed to read line: " ++ e) ∧
      getLineCountCmd (Except.ok [Except.error "bad", Except.ok "line"]) =
        Except.ok [Except.error "bad", Except.ok "line"].length :=
  ⟨⟨Except.error "bad", by simp, fun _ h => Except.noConfusion h⟩,
    (io_error_atomicity gf0 0 true true).2.1 _
      ⟨Except.error "bad", by simp, fun _ h => Except.noConfusion h⟩⟩

end Pico
